import Mathlib

/-!
Verification of the go-serverapp/web request-admission and response-pipeline
core, as a shallow embedding of the Go source into Lean 4.

The embedding covers:
* `responseWriter` (src/web/response-writer.go): deferred header commitment.
* `Pipeline` (src/web/pipeline.go): single-pass stage chain with a cursor.
* `gzipWriter` / `GzipPipe` (src/web/pipeline.go): conditional compression.
* `Listener` (the connection gate): hysteretic admission control, graceful
  close, and guaranteed in-flight cleanup, including the exact float32
  computation of the low threshold.
* `HTTPServer.ServeHTTP`: the dispatcher's final unconditional flush.

Machine integers: Go's `int32`/`int64` counters here never approach their
bounds in the behaviours under study, so they are modelled as `Int` without
wrap-around.  The one place where machine arithmetic is semantically load
bearing — `int32(float32(maxNumConn) * 0.95)` — is modelled bit-exactly with
dyadic rationals (IEEE-754 binary32 round-to-nearest-even).
-/

/-! ## Headers

Go's `http.Header` is a map from canonical keys to value lists; the code under
study only uses `Get` (first value or "") and `Set` (replace).  We model it as
an association list where `Set` prepends, so `Get` sees the latest value.
-/

/-- Header map: association list, most recent binding first. -/
def Headers := List (String × String)

instance : DecidableEq Headers := by
  unfold Headers
  infer_instance

/-- Go `http.Header.Get`: first value for the key, or "" when absent. -/
def hGet : Headers → String → String
  | [], _ => ""
  | (k1, v) :: t, k => if k1 = k then v else hGet t k

/-- Go `http.Header.Set`: bind `k` to `v`, shadowing earlier bindings. -/
def hSet (h : Headers) (k v : String) : Headers := (k, v) :: h

/-! ## responseWriter (src/web/response-writer.go)

The wrapped `http.ResponseWriter` (the underlying sink) is modelled as the
trace of calls the wrapper forwards to it.  `t.w.Write(b)` is modelled as
writing all of `b` (the returned count is `b.length`), which is the behaviour
the byte accounting in the source assumes.
-/

/-- One call forwarded to the underlying `http.ResponseWriter`. -/
inductive SinkEvent
  | header (code : Int)
  | bytes (b : List Nat)
  | flushed
deriving DecidableEq, Repr

/-- State of `responseWriter` together with the trace already sent to the
underlying sink.  `isFlusher` records whether the underlying sink implements
`http.Flusher` (capability probe in `Flush`). -/
structure RWState where
  headers : Headers
  numBytesW : Int
  code : Int
  headerWritten : Bool
  isFlusher : Bool
  sink : List SinkEvent
deriving DecidableEq

/-- Fresh wrapper around an underlying sink with header map `h0`
(`AsResponseWriter` / `&responseWriter{w: w}`). -/
def rwInit (h0 : Headers) (fl : Bool) : RWState :=
  { headers := h0, numBytesW := 0, code := 0, headerWritten := false,
    isFlusher := fl, sink := [] }

/-- `responseWriter.ResponseCode`: recorded code, or 200 when `code <= 0`. -/
def responseCodeOf (s : RWState) : Int :=
  if s.code ≤ 0 then 200 else s.code

/-- `responseWriter.ensureHeaderWritten`: on first need, forward
`WriteHeader(ResponseCode())` to the underlying sink and latch the flag. -/
def ensureHW (s : RWState) : RWState :=
  if s.headerWritten then s
  else { s with sink := s.sink ++ [SinkEvent.header (responseCodeOf s)],
                headerWritten := true }

/-- `responseWriter.Write`: commit if needed, forward the bytes, accumulate
the byte count. -/
def rwWrite (s : RWState) (b : List Nat) : RWState :=
  let s1 := ensureHW s
  { s1 with sink := s1.sink ++ [SinkEvent.bytes b],
            numBytesW := s1.numBytesW + b.length }

/-- `responseWriter.Flush`: commit if needed, then forward `Flush` when the
underlying sink supports it. -/
def rwFlush (s : RWState) : RWState :=
  let s1 := ensureHW s
  if s1.isFlusher then { s1 with sink := s1.sink ++ [SinkEvent.flushed] }
  else s1

/-- `responseWriter.WriteHeader`: ignored once committed; otherwise only
records the code. -/
def rwWriteHeader (s : RWState) (c : Int) : RWState :=
  if s.headerWritten then s else { s with code := c }

/-- An operation a caller can perform on the wrapper. -/
inductive RWOp
  | setCode (c : Int)
  | writeB (b : List Nat)
  | flushOp
deriving DecidableEq, Repr

def rwApply (s : RWState) : RWOp → RWState
  | RWOp.setCode c => rwWriteHeader s c
  | RWOp.writeB b => rwWrite s b
  | RWOp.flushOp => rwFlush s

def rwRun (s : RWState) : List RWOp → RWState
  | [] => s
  | op :: ops => rwRun (rwApply s op) ops

/-- Number of `WriteHeader` calls the underlying sink has received. -/
def countWH : List SinkEvent → Nat
  | [] => 0
  | SinkEvent.header _ :: t => countWH t + 1
  | _ :: t => countWH t

/-- Is the operation a pure status-set? -/
def RWOp.isSet : RWOp → Bool
  | RWOp.setCode _ => true
  | _ => false

theorem countWH_append (l1 l2 : List SinkEvent) :
    countWH (l1 ++ l2) = countWH l1 + countWH l2 := by
  induction l1 with
  | nil => simp [countWH]
  | cons e t ih =>
    cases e with
    | header c => simp [countWH, ih]; omega
    | bytes b => simp [countWH, ih]
    | flushed => simp [countWH, ih]

theorem countWH_ensureHW (s : RWState) :
    countWH (ensureHW s).sink = countWH s.sink + (if s.headerWritten then 0 else 1) := by
  unfold ensureHW
  by_cases h : s.headerWritten <;> simp [h, countWH_append, countWH]

theorem headerWritten_ensureHW (s : RWState) : (ensureHW s).headerWritten = true := by
  unfold ensureHW
  by_cases h : s.headerWritten <;> simp [h]

/-- Commit invariant: the underlying sink has received exactly one
`WriteHeader` call iff the wrapper is committed, none otherwise. -/
def rwCommitInv (s : RWState) : Prop :=
  countWH s.sink = if s.headerWritten then 1 else 0

theorem rwCommitInv_apply (s : RWState) (op : RWOp) (h : rwCommitInv s) :
    rwCommitInv (rwApply s op) := by
  unfold rwCommitInv at h ⊢
  cases op with
  | setCode c =>
    simp only [rwApply, rwWriteHeader]
    by_cases hw : s.headerWritten <;> simp [hw] <;> simpa [hw] using h
  | writeB b =>
    simp only [rwApply, rwWrite, countWH_append, countWH_ensureHW,
      headerWritten_ensureHW, countWH]
    by_cases hw : s.headerWritten <;> simp [hw] at h ⊢ <;> omega
  | flushOp =>
    simp only [rwApply, rwFlush]
    by_cases hf : (ensureHW s).isFlusher <;>
      simp [hf, countWH, countWH_append, countWH_ensureHW, headerWritten_ensureHW] <;>
      by_cases hw : s.headerWritten <;> simp [hw] at h ⊢ <;> omega

theorem rwCommitInv_run (s : RWState) (ops : List RWOp) (h : rwCommitInv s) :
    rwCommitInv (rwRun s ops) := by
  induction ops generalizing s with
  | nil => exact h
  | cons op t ih => exact ih _ (rwCommitInv_apply s op h)

theorem rwCommitInv_init (h0 : Headers) (fl : Bool) : rwCommitInv (rwInit h0 fl) := by
  simp [rwCommitInv, rwInit, countWH]

theorem rwRun_allSet_aux (ops : List RWOp) (h : ops.all RWOp.isSet = true) :
    ∀ s : RWState, s.headerWritten = false →
      (rwRun s ops).headerWritten = false ∧ (rwRun s ops).sink = s.sink := by
  induction ops with
  | nil => intro s hs; exact ⟨hs, rfl⟩
  | cons op t ih =>
    intro s hs
    simp only [List.all_cons, Bool.and_eq_true] at h
    cases op with
    | setCode c =>
      have hs2 : (rwWriteHeader s c).headerWritten = false := by
        simp [rwWriteHeader, hs]
      have hsink : (rwWriteHeader s c).sink = s.sink := by
        simp [rwWriteHeader, hs]
      have hrec := ih h.2 (rwWriteHeader s c) hs2
      exact ⟨hrec.1, by rw [show rwRun s (RWOp.setCode c :: t) =
        rwRun (rwWriteHeader s c) t from rfl, hrec.2, hsink]⟩
    | writeB b => simp [RWOp.isSet] at h
    | flushOp => simp [RWOp.isSet] at h

/-- Status-set-only prefixes neither commit nor touch the sink. -/
theorem rwRun_allSet (ops : List RWOp) (h0 : Headers) (fl : Bool)
    (h : ops.all RWOp.isSet = true) :
    (rwRun (rwInit h0 fl) ops).headerWritten = false ∧
    (rwRun (rwInit h0 fl) ops).sink = [] := by
  have := rwRun_allSet_aux ops h (rwInit h0 fl) rfl
  simpa [rwInit] using this

/-- Wrapper state after a client performs `ops` on a fresh wrapper. -/
def rwAfter (h0 : Headers) (fl : Bool) (ops : List RWOp) : RWState :=
  rwRun (rwInit h0 fl) ops

theorem rwApply_isFlusher (s : RWState) (op : RWOp) :
    (rwApply s op).isFlusher = s.isFlusher := by
  cases op <;> simp [rwApply, rwWrite, rwFlush, rwWriteHeader, ensureHW] <;>
    split <;> simp_all <;> split <;> simp_all

theorem rwRun_isFlusher (s : RWState) (ops : List RWOp) :
    (rwRun s ops).isFlusher = s.isFlusher := by
  induction ops generalizing s with
  | nil => rfl
  | cons op t ih => rw [show rwRun s (op :: t) = rwRun (rwApply s op) t from rfl,
      ih, rwApply_isFlusher]

theorem rwApply_code_notSet (s : RWState) (op : RWOp) (h : op.isSet = false) :
    (rwApply s op).code = s.code := by
  cases op with
  | setCode c => simp [RWOp.isSet] at h
  | writeB b => simp [rwApply, rwWrite, ensureHW]; split <;> simp
  | flushOp =>
    simp only [rwApply, rwFlush]
    split <;> simp [ensureHW] <;> split <;> simp_all [ensureHW]

theorem rwRun_code_noSet (s : RWState) (ops : List RWOp)
    (h : ops.all (fun op => !op.isSet) = true) : (rwRun s ops).code = s.code := by
  induction ops generalizing s with
  | nil => rfl
  | cons op t ih =>
    simp only [List.all_cons, Bool.and_eq_true] at h
    rw [show rwRun s (op :: t) = rwRun (rwApply s op) t from rfl, ih _ h.2,
      rwApply_code_notSet s op (by simpa using h.1)]

/-- First `Write` on an uncommitted wrapper: the recorded status goes to the
underlying sink, then the bytes. -/
theorem rwWrite_uncommitted (s : RWState) (h : s.headerWritten = false) (b : List Nat) :
    (rwWrite s b).sink =
      s.sink ++ [SinkEvent.header (responseCodeOf s), SinkEvent.bytes b] ∧
    (rwWrite s b).headerWritten = true ∧
    (rwWrite s b).numBytesW = s.numBytesW + b.length := by
  simp [rwWrite, ensureHW, h]

/-- First `Flush` on an uncommitted wrapper: the recorded status goes to the
underlying sink, then `Flush` when the sink supports it. -/
theorem rwFlush_uncommitted (s : RWState) (h : s.headerWritten = false) :
    (rwFlush s).sink = s.sink ++ [SinkEvent.header (responseCodeOf s)] ++
      (if s.isFlusher then [SinkEvent.flushed] else []) ∧
    (rwFlush s).headerWritten = true := by
  by_cases hf : s.isFlusher <;> simp [rwFlush, ensureHW, h, hf]

/-- Claim C1: a `WriteHeader(c)` before any write or flush only records `c`
and writes nothing to the underlying sink (`IsHeaderWritten` stays false); the
first `Write` or `Flush` writes the recorded status — or 200 if none was set —
to the underlying sink exactly once; and every `WriteHeader` after that first
commit is silently ignored, so the committed status never changes. -/
theorem C1_deferred_header_commit (h0 : Headers) (fl : Bool) (ops : List RWOp) :
    (ops.all RWOp.isSet = true →
      (rwAfter h0 fl ops).headerWritten = false ∧ (rwAfter h0 fl ops).sink = []) ∧
    (countWH (rwAfter h0 fl ops).sink =
      if (rwAfter h0 fl ops).headerWritten then 1 else 0) ∧
    (ops.all (fun op => !op.isSet) = true → responseCodeOf (rwAfter h0 fl ops) = 200) ∧
    ((rwAfter h0 fl ops).headerWritten = false → ∀ b : List Nat,
      (rwWrite (rwAfter h0 fl ops) b).sink = (rwAfter h0 fl ops).sink ++
        [SinkEvent.header (responseCodeOf (rwAfter h0 fl ops)), SinkEvent.bytes b] ∧
      (rwFlush (rwAfter h0 fl ops)).sink = (rwAfter h0 fl ops).sink ++
        [SinkEvent.header (responseCodeOf (rwAfter h0 fl ops))] ++
        (if fl then [SinkEvent.flushed] else [])) ∧
    ((rwAfter h0 fl ops).headerWritten = true → ∀ c : Int,
      rwWriteHeader (rwAfter h0 fl ops) c = rwAfter h0 fl ops) := by
  refine ⟨fun h => rwRun_allSet ops h0 fl h, ?_, ?_, ?_, ?_⟩
  · exact rwCommitInv_run _ ops (rwCommitInv_init h0 fl)
  · intro h
    have hc := rwRun_code_noSet (rwInit h0 fl) ops h
    have hz : (rwAfter h0 fl ops).code = 0 := by simpa [rwInit] using hc
    simp [responseCodeOf, hz]
  · intro h b
    refine ⟨(rwWrite_uncommitted _ h b).1, ?_⟩
    have hfl : (rwAfter h0 fl ops).isFlusher = fl := by
      simpa [rwAfter, rwInit] using rwRun_isFlusher (rwInit h0 fl) ops
    rw [(rwFlush_uncommitted _ h).1, hfl]
  · intro h c
    simp [rwWriteHeader, h]

/-- Witness for C1 at concrete inputs: record 404 (uncommitted, sink empty),
commit through a write (status 404 then the bytes reach the sink exactly
once), then a late `WriteHeader 500` is a no-op; with no status set, the
code to commit is 200. -/
theorem C1_deferred_header_commit_witness :
    ([RWOp.setCode 404].all RWOp.isSet = true ∧
      (rwAfter [] true [RWOp.setCode 404]).headerWritten = false ∧
      (rwAfter [] true [RWOp.setCode 404]).sink = []) ∧
    (rwWrite (rwAfter [] true [RWOp.setCode 404]) [7]).sink =
      [SinkEvent.header 404, SinkEvent.bytes [7]] ∧
    countWH (rwAfter [] true [RWOp.setCode 404, RWOp.writeB [7]]).sink = 1 ∧
    rwWriteHeader (rwAfter [] true [RWOp.setCode 404, RWOp.writeB [7]]) 500 =
      rwAfter [] true [RWOp.setCode 404, RWOp.writeB [7]] ∧
    responseCodeOf (rwAfter [] true [RWOp.writeB [7]]) = 200 := by
  have h1 := C1_deferred_header_commit [] true [RWOp.setCode 404]
  have h2 := C1_deferred_header_commit [] true [RWOp.setCode 404, RWOp.writeB [7]]
  have h3 := C1_deferred_header_commit [] true [RWOp.writeB [7]]
  refine ⟨⟨by decide, h1.1 (by decide)⟩, ?_, ?_, ?_, ?_⟩
  · have := (h1.2.2.2.1 (h1.1 (by decide)).1 [7]).1
    rw [this, (h1.1 (by decide)).2]
    decide
  · have := h2.2.1
    rw [this]
    decide
  · exact h2.2.2.2.2 (by decide) 500
  · exact h3.2.2.1 (by decide)

/-- Claim C10: on an uncommitted wrapper, `Write` with a zero-byte buffer
already commits: the recorded status reaches the underlying sink,
`IsHeaderWritten` becomes true, and `NumBytesWritten` is unchanged. -/
theorem C10_empty_write_commits (s : RWState) (h : s.headerWritten = false) :
    (rwWrite s []).headerWritten = true ∧
    (rwWrite s []).sink =
      s.sink ++ [SinkEvent.header (responseCodeOf s), SinkEvent.bytes []] ∧
    (rwWrite s []).numBytesW = s.numBytesW := by
  have := rwWrite_uncommitted s h []
  exact ⟨this.2.1, this.1, by simpa using this.2.2⟩

/-- Witness for C10: a fresh wrapper, written with zero bytes, commits status
200 with no byte count. -/
theorem C10_empty_write_commits_witness :
    (rwInit [] true).headerWritten = false ∧
    (rwWrite (rwInit [] true) []).headerWritten = true ∧
    (rwWrite (rwInit [] true) []).sink =
      [SinkEvent.header 200, SinkEvent.bytes []] ∧
    (rwWrite (rwInit [] true) []).numBytesW = 0 := by
  have := C10_empty_write_commits (rwInit [] true) rfl
  exact ⟨rfl, this.1, by rw [this.2.1]; decide, by rw [this.2.2]; rfl⟩

/-! ## Dispatcher final flush (src/unnamed/part_001, `HTTPServer.ServeHTTP`)

`ServeHTTP` wraps the raw sink once (`AsResponseWriter`), runs the pipeline
(abstracted here as the sequence `ops` of wrapper operations the stages
perform), then performs one final unconditional `w2.Flush()`. -/

def serveDispatch (h0 : Headers) (fl : Bool) (ops : List RWOp) : RWState :=
  rwFlush (rwAfter h0 fl ops)

/-- Claim C9: after the pipeline returns, the dispatcher's final unconditional
flush leaves the response committed — the recorded status, or 200 if none was
set, has been written to the underlying sink exactly once — even if no stage
wrote a byte or explicitly flushed. -/
theorem C9_final_flush_commits (h0 : Headers) (fl : Bool) (ops : List RWOp) :
    (serveDispatch h0 fl ops).headerWritten = true ∧
    countWH (serveDispatch h0 fl ops).sink = 1 ∧
    ((rwAfter h0 fl ops).headerWritten = false →
      (serveDispatch h0 fl ops).sink = (rwAfter h0 fl ops).sink ++
        [SinkEvent.header (responseCodeOf (rwAfter h0 fl ops))] ++
        (if fl then [SinkEvent.flushed] else [])) ∧
    (ops = [] → (serveDispatch h0 fl ops).sink =
      [SinkEvent.header 200] ++ (if fl then [SinkEvent.flushed] else [])) := by
  have hcommitted : (serveDispatch h0 fl ops).headerWritten = true := by
    simp only [serveDispatch, rwFlush]
    split <;> simp [headerWritten_ensureHW]
  refine ⟨hcommitted, ?_, ?_, ?_⟩
  · have hinv : rwCommitInv (rwApply (rwAfter h0 fl ops) RWOp.flushOp) :=
      rwCommitInv_apply _ _ (rwCommitInv_run _ ops (rwCommitInv_init h0 fl))
    have : rwApply (rwAfter h0 fl ops) RWOp.flushOp = serveDispatch h0 fl ops := rfl
    rw [this] at hinv
    rw [rwCommitInv] at hinv
    rw [hinv, hcommitted]
    rfl
  · intro h
    have hfl : (rwAfter h0 fl ops).isFlusher = fl := by
      simpa [rwAfter, rwInit] using rwRun_isFlusher (rwInit h0 fl) ops
    have := (rwFlush_uncommitted _ h).1
    rw [show serveDispatch h0 fl ops = rwFlush (rwAfter h0 fl ops) from rfl, this, hfl]
  · intro h
    subst h
    by_cases hf : fl <;>
      simp [serveDispatch, rwAfter, rwRun, rwFlush, ensureHW, rwInit, responseCodeOf, hf]

/-- Witness for C9: an empty pipeline that never touches the sink still ends
committed with status 200 written once. -/
theorem C9_final_flush_commits_witness :
    (serveDispatch [] true []).headerWritten = true ∧
    countWH (serveDispatch [] true []).sink = 1 ∧
    ((rwAfter [] true []).headerWritten = false ∧
      (serveDispatch [] true []).sink =
        [SinkEvent.header 200, SinkEvent.flushed]) := by
  have h := C9_final_flush_commits [] true []
  refine ⟨h.1, h.2.1, rfl, ?_⟩
  have := h.2.2.2 rfl
  rw [this]
  decide

/-! ## Pipeline (src/web/pipeline.go)

`Pipeline` holds an ordered slice of pipes `s` and a cursor `i`; `Next`
returns immediately when `i >= len(s)`, otherwise selects `s[i]`, increments
the cursor, and invokes the selected pipe.  The pipes themselves are opaque:
the only way any code mutates the pipeline is through `Next`, so the states a
pipeline instance can reach are exactly the iterates of `pNext`.  `invoked`
instruments the model with the indices of the pipes invoked, in order. -/

structure PState where
  n : Nat
  i : Nat
  invoked : List Nat
deriving DecidableEq, Repr

/-- `NewPipeline(pipes...)`: cursor at zero, nothing invoked. -/
def pInit (n : Nat) : PState := { n := n, i := 0, invoked := [] }

/-- `Pipeline.Next`: no-op past the end; otherwise increment the cursor and
invoke the pipe that was at the cursor. -/
def pNext (p : PState) : PState :=
  if p.n ≤ p.i then p
  else { p with i := p.i + 1, invoked := p.invoked ++ [p.i] }

/-- The pipeline state after `k` calls to `Next` (nested or sequential — each
call sees the state the previous one left). -/
def pIter (n : Nat) : Nat → PState
  | 0 => pInit n
  | k + 1 => pNext (pIter n k)

theorem pIter_invariant (n k : Nat) :
    (pIter n k).n = n ∧ (pIter n k).i ≤ n ∧
    (pIter n k).invoked = List.range (pIter n k).i := by
  induction k with
  | zero => simp [pIter, pInit]
  | succ k ih =>
    obtain ⟨hn, hi, hinv⟩ := ih
    by_cases h : n ≤ (pIter n k).i
    · have hno : pNext (pIter n k) = pIter n k := by simp [pNext, hn, h]
      rw [pIter, hno]
      exact ⟨hn, hi, hinv⟩
    · have hstep : pNext (pIter n k) =
          ⟨n, (pIter n k).i + 1, (pIter n k).invoked ++ [(pIter n k).i]⟩ := by
        simp [pNext, hn, h]
      rw [pIter, hstep]
      exact ⟨rfl, by simp; omega, by simp [hinv, List.range_succ]⟩

/-- Claim C8: once the cursor has reached or passed the end of the stage
sequence, `Next` is a no-op that invokes no stage and leaves the state
unchanged; on every other invocation the cursor strictly increases by one
while the selected stage is invoked, so every reachable state has invoked the
pipes `0, 1, ..., i-1` each exactly once (no duplicates, and in particular the
final stage is never re-invoked). -/
theorem C8_next_past_end_noop (n k : Nat) :
    ((pIter n k).n ≤ (pIter n k).i → pNext (pIter n k) = pIter n k) ∧
    ((pIter n k).i < (pIter n k).n →
      (pNext (pIter n k)).i = (pIter n k).i + 1 ∧
      (pNext (pIter n k)).invoked = (pIter n k).invoked ++ [(pIter n k).i]) ∧
    (pIter n k).invoked = List.range (pIter n k).i ∧
    (pIter n k).invoked.Nodup := by
  obtain ⟨hn, hi, hinv⟩ := pIter_invariant n k
  refine ⟨fun h => by simp [pNext, h], fun h => ?_, hinv, ?_⟩
  · constructor <;> simp [pNext, Nat.not_le.mpr h]
  · rw [hinv]; exact List.nodup_range _

/-- Witness for C8: a two-stage pipeline; the first two `Next` calls invoke
stages 0 and 1, the third is a no-op leaving the state unchanged. -/
theorem C8_next_past_end_noop_witness :
    ((pIter 2 2).n ≤ (pIter 2 2).i ∧ pNext (pIter 2 2) = pIter 2 2) ∧
    ((pIter 2 0).i < (pIter 2 0).n ∧ (pNext (pIter 2 0)).i = (pIter 2 0).i + 1) ∧
    (pIter 2 2).invoked = [0, 1] ∧ (pIter 2 2).invoked.Nodup := by
  have h2 := C8_next_past_end_noop 2 2
  have h0 := C8_next_past_end_noop 2 0
  refine ⟨⟨by decide, h2.1 (by decide)⟩, ⟨by decide, (h0.2.1 (by decide)).1⟩, ?_, h2.2.2.2⟩
  rw [h2.2.2.1]
  decide

/-! ## Gzip pipe (src/web/pipeline.go)

`GzipPipe.ServeHttpPipe` forwards unchanged unless the request's
`Accept-Encoding` contains "gzip"; otherwise it wraps the sink in a
`gzipWriter`, forwards, then flushes and closes the wrapper.  On the first
write only, `gzipWriter.Write` decides whether to compress: skip if a
`Content-Encoding` is already set; otherwise derive the content type (explicit
header, else sniffed from the first chunk and recorded) and test it against
`gzipTypes = ^text/|(json|javascript|plain|html|css|xml)`.

The gzip compressor itself (`compress/gzip`, standard library) is abstracted
as a function `enc` on the byte stream: writes are accumulated and `Close`
emits the compressed stream to the bound sink.  (The real writer emits
incrementally on `Flush`, but the concatenation of everything it emits is
exactly the compressed form of everything written, which is what `enc`
models.)  `http.DetectContentType` is likewise abstracted as `sniff`. -/

def doGzipResp : Bool := true

def listStarts : List Char → List Char → Bool
  | [], _ => true
  | _ :: _, [] => false
  | a :: as, b :: bs => a == b && listStarts as bs

/-- Does `sub` occur contiguously inside `l`?  (`strings.Contains`.) -/
def listHas (sub : List Char) : List Char → Bool
  | [] => listStarts sub []
  | c :: t => listStarts sub (c :: t) || listHas sub t

/-- `strings.Contains haystack needle`. -/
def strHasSub (s sub : String) : Bool := listHas sub.toList s.toList

/-- The `gzipTypes` regular expression `^text/|(json|javascript|plain|html|css|xml)`
as used by `MatchString`: anchored "text/" at the start, or any of the listed
words anywhere. -/
def gzipTypesMatch (ct : String) : Bool :=
  listStarts "text/".toList ct.toList || strHasSub ct "json" ||
    strHasSub ct "javascript" || strHasSub ct "plain" || strHasSub ct "html" ||
    strHasSub ct "css" || strHasSub ct "xml"

/-- `gzipWriter` state: the latch `started`, the pooled compressor (`some`
holds the bytes written into it since it was bound), and the wrapped
`ResponseWriter`. -/
structure GzState where
  started : Bool
  gw : Option (List Nat)
  rw : RWState
deriving DecidableEq

def gzInit (rw : RWState) : GzState := { started := false, gw := none, rw := rw }

/-- `gzipWriter.Write`. -/
def gzWrite (sniff : List Nat → String) (st : GzState) (b : List Nat) : GzState :=
  let st1 :=
    if doGzipResp && !st.started then
      let sa := { st with started := true }
      if hGet sa.rw.headers "Content-Encoding" = "" then
        let ct0 := hGet sa.rw.headers "Content-Type"
        let ct := if ct0 = "" then sniff b else ct0
        let hdrs1 := if ct0 = "" then hSet sa.rw.headers "Content-Type" ct else sa.rw.headers
        let sb := { sa with rw := { sa.rw with headers := hdrs1 } }
        if gzipTypesMatch ct then
          { sb with rw := { sb.rw with headers := hSet hdrs1 "Content-Encoding" "gzip" }, gw := some [] }
        else sb
      else sa
    else st
  match st1.gw with
  | some buf => { st1 with gw := some (buf ++ b) }
  | none => { st1 with rw := rwWrite st1.rw b }

/-- `gzipWriter.Flush`: flush the compressor if bound (emission is accounted
at `Close` in this model), then always flush the wrapped sink. -/
def gzFlush (st : GzState) : GzState := { st with rw := rwFlush st.rw }

/-- `gzipWriter.Close`: finalize the compressor — its complete compressed
output `enc buf` reaches the bound sink — and release it to the pool. -/
def gzClose (enc : List Nat → List Nat) (st : GzState) : GzState :=
  match st.gw with
  | some buf => { st with rw := rwWrite st.rw (enc buf), gw := none }
  | none => st

/-- `GzipPipe.ServeHttpPipe`, with the rest of the chain abstracted as the
chunks `ws` it writes to the sink it is handed. -/
def gzipStage (enc : List Nat → List Nat) (sniff : List Nat → String)
    (acceptEnc : String) (ws : List (List Nat)) (rw0 : RWState) : RWState :=
  if !(strHasSub acceptEnc "gzip") then ws.foldl rwWrite rw0
  else (gzClose enc (gzFlush (ws.foldl (gzWrite sniff) (gzInit rw0)))).rw

/-- Bytes carried by the byte-write events of a sink trace, in order. -/
def sinkBody : List SinkEvent → List Nat
  | [] => []
  | SinkEvent.bytes b :: t => b ++ sinkBody t
  | _ :: t => sinkBody t

theorem sinkBody_append (l1 l2 : List SinkEvent) :
    sinkBody (l1 ++ l2) = sinkBody l1 ++ sinkBody l2 := by
  induction l1 with
  | nil => simp [sinkBody]
  | cons e t ih =>
    cases e with
    | header c => simp [sinkBody, ih]
    | bytes b => simp [sinkBody, ih]
    | flushed => simp [sinkBody, ih]

theorem sinkBody_ensureHW (s : RWState) :
    sinkBody (ensureHW s).sink = sinkBody s.sink := by
  unfold ensureHW
  split <;> simp [sinkBody_append, sinkBody]

theorem sinkBody_rwWrite (s : RWState) (b : List Nat) :
    sinkBody (rwWrite s b).sink = sinkBody s.sink ++ b := by
  simp [rwWrite, sinkBody_append, sinkBody, sinkBody_ensureHW]

theorem sinkBody_rwFlush (s : RWState) :
    sinkBody (rwFlush s).sink = sinkBody s.sink := by
  by_cases hf : (ensureHW s).isFlusher <;>
    simp [rwFlush, hf, sinkBody_append, sinkBody, sinkBody_ensureHW]

theorem sinkBody_foldl (ws : List (List Nat)) : ∀ s : RWState,
    sinkBody ((ws.foldl rwWrite s)).sink = sinkBody s.sink ++ ws.flatten := by
  induction ws with
  | nil => intro s; simp
  | cons b t ih => intro s; simp [List.foldl_cons, ih, sinkBody_rwWrite]

theorem headers_ensureHW (s : RWState) : (ensureHW s).headers = s.headers := by
  unfold ensureHW; split <;> rfl

theorem headers_rwWrite (s : RWState) (b : List Nat) :
    (rwWrite s b).headers = s.headers := by
  simp [rwWrite, headers_ensureHW]

theorem headers_rwFlush (s : RWState) : (rwFlush s).headers = s.headers := by
  by_cases hf : (ensureHW s).isFlusher <;> simp [rwFlush, hf, headers_ensureHW]

theorem headers_foldl (ws : List (List Nat)) : ∀ s : RWState,
    ((ws.foldl rwWrite s)).headers = s.headers := by
  induction ws with
  | nil => intro s; rfl
  | cons b t ih => intro s; simp [List.foldl_cons, ih, headers_rwWrite]

/-- Once the compressor is bound, later writes only accumulate into it. -/
theorem gzWrite_buffered (sniff : List Nat → String) (ws : List (List Nat)) :
    ∀ (st : GzState) (buf : List Nat), st.started = true → st.gw = some buf →
      ws.foldl (gzWrite sniff) st = { st with gw := some (buf ++ ws.flatten) } := by
  induction ws with
  | nil =>
    intro st buf _ hg
    obtain ⟨s0, g0, r0⟩ := st
    simp only [List.foldl_nil, List.flatten_nil, List.append_nil]
    simp only at hg
    rw [hg]
  | cons b t ih =>
    intro st buf hs hg
    have hstep : gzWrite sniff st b = { st with gw := some (buf ++ b) } := by
      simp [gzWrite, hs, hg, doGzipResp]
    rw [List.foldl_cons, hstep,
      ih { st with gw := some (buf ++ b) } (buf ++ b) hs rfl]
    simp

/-- With the latch set and no compressor bound, writes pass straight through. -/
theorem gzWrite_pass (sniff : List Nat → String) (ws : List (List Nat)) :
    ∀ st : GzState, st.started = true → st.gw = none →
      ws.foldl (gzWrite sniff) st = { st with rw := ws.foldl rwWrite st.rw } := by
  induction ws with
  | nil => intro st _ _; simp
  | cons b t ih =>
    intro st hs hg
    have hstep : gzWrite sniff st b = { st with rw := rwWrite st.rw b } := by
      simp [gzWrite, hs, hg, doGzipResp]
    rw [List.foldl_cons, hstep, ih { st with rw := rwWrite st.rw b } hs hg]
    simp [List.foldl_cons]

theorem hGet_hSet_eq (h : Headers) (k v : String) : hGet (hSet h k v) k = v := by
  simp [hGet, hSet]

theorem hGet_hSet_ne (h : Headers) (k1 k2 v : String) (hne : k1 ≠ k2) :
    hGet (hSet h k1 v) k2 = hGet h k2 := by
  simp [hGet, hSet, hne]

/-- First write, content type sniffed, allow-list hit: record the sniffed
type, set `Content-Encoding: gzip`, bind the compressor, buffer the chunk. -/
theorem gzWrite_first_sniff_hit (sniff : List Nat → String) (b : List Nat)
    (rw0 : RWState) (hce : hGet rw0.headers "Content-Encoding" = "")
    (hct0 : hGet rw0.headers "Content-Type" = "")
    (hm : gzipTypesMatch (sniff b) = true) :
    gzWrite sniff (gzInit rw0) b = ⟨true, some b, { rw0 with
      headers := hSet (hSet rw0.headers "Content-Type" (sniff b)) "Content-Encoding" "gzip" }⟩ := by
  simp [gzWrite, gzInit, doGzipResp, hce, hct0, hm]

/-- First write, explicit content type, allow-list hit. -/
theorem gzWrite_first_expl_hit (sniff : List Nat → String) (b : List Nat)
    (rw0 : RWState) (hce : hGet rw0.headers "Content-Encoding" = "")
    (hct0 : ¬hGet rw0.headers "Content-Type" = "")
    (hm : gzipTypesMatch (hGet rw0.headers "Content-Type") = true) :
    gzWrite sniff (gzInit rw0) b = ⟨true, some b, { rw0 with
      headers := hSet rw0.headers "Content-Encoding" "gzip" }⟩ := by
  simp [gzWrite, gzInit, doGzipResp, hce, hct0, hm]

/-- First write, content type sniffed, allow-list miss: record the sniffed
type and pass the chunk straight through. -/
theorem gzWrite_first_sniff_miss (sniff : List Nat → String) (b : List Nat)
    (rw0 : RWState) (hce : hGet rw0.headers "Content-Encoding" = "")
    (hct0 : hGet rw0.headers "Content-Type" = "")
    (hm : gzipTypesMatch (sniff b) = false) :
    gzWrite sniff (gzInit rw0) b = ⟨true, none,
      rwWrite { rw0 with headers := hSet rw0.headers "Content-Type" (sniff b) } b⟩ := by
  simp [gzWrite, gzInit, doGzipResp, hce, hct0, hm]

/-- First write, explicit content type, allow-list miss: pure pass-through. -/
theorem gzWrite_first_expl_miss (sniff : List Nat → String) (b : List Nat)
    (rw0 : RWState) (hce : hGet rw0.headers "Content-Encoding" = "")
    (hct0 : ¬hGet rw0.headers "Content-Type" = "")
    (hm : gzipTypesMatch (hGet rw0.headers "Content-Type") = false) :
    gzWrite sniff (gzInit rw0) b = ⟨true, none, rwWrite rw0 b⟩ := by
  simp [gzWrite, gzInit, doGzipResp, hce, hct0, hm]

/-- Claim C5: for a request advertising gzip support, when the first bytes
are written with no `Content-Encoding` already set: if the derived content
type (explicit `Content-Type` header, else sniffed from the first chunk)
matches the allow-list, the stage sets `Content-Encoding: gzip`, routes the
body through the compressor, and decompressing the emitted body reproduces
byte-for-byte exactly what the handler wrote; if the derived type does not
match, the bytes pass through unmodified. -/
theorem C5_gzip_compression (enc dec : List Nat → List Nat)
    (sniff : List Nat → String) (acceptEnc : String) (h0 : Headers) (fl : Bool)
    (b : List Nat) (rest : List (List Nat))
    (hrt : ∀ x, dec (enc x) = x)
    (hacc : strHasSub acceptEnc "gzip" = true)
    (hce : hGet h0 "Content-Encoding" = "") :
    (gzipTypesMatch (if hGet h0 "Content-Type" = "" then sniff b
        else hGet h0 "Content-Type") = true →
      hGet (gzipStage enc sniff acceptEnc (b :: rest) (rwInit h0 fl)).headers
          "Content-Encoding" = "gzip" ∧
      dec (sinkBody (gzipStage enc sniff acceptEnc (b :: rest) (rwInit h0 fl)).sink) =
        (b :: rest).flatten) ∧
    (gzipTypesMatch (if hGet h0 "Content-Type" = "" then sniff b
        else hGet h0 "Content-Type") = false →
      hGet (gzipStage enc sniff acceptEnc (b :: rest) (rwInit h0 fl)).headers
          "Content-Encoding" = "" ∧
      sinkBody (gzipStage enc sniff acceptEnc (b :: rest) (rwInit h0 fl)).sink =
        (b :: rest).flatten) := by
  have hstage : gzipStage enc sniff acceptEnc (b :: rest) (rwInit h0 fl) =
      (gzClose enc (gzFlush ((b :: rest).foldl (gzWrite sniff)
        (gzInit (rwInit h0 fl))))).rw := by
    simp [gzipStage, hacc]
  constructor
  · intro hm
    by_cases hct0 : hGet h0 "Content-Type" = ""
    · have hm2 : gzipTypesMatch (sniff b) = true := by simpa [hct0] using hm
      have hfirst := gzWrite_first_sniff_hit sniff b (rwInit h0 fl) hce hct0 hm2
      have hfold : (b :: rest).foldl (gzWrite sniff) (gzInit (rwInit h0 fl)) =
          ⟨true, some (b ++ rest.flatten), { rwInit h0 fl with
            headers := hSet (hSet h0 "Content-Type" (sniff b)) "Content-Encoding" "gzip" }⟩ := by
        rw [List.foldl_cons, hfirst]
        exact gzWrite_buffered sniff rest _ b rfl rfl
      rw [hstage, hfold]
      simp only [gzFlush, gzClose]
      constructor
      · rw [headers_rwWrite, headers_rwFlush]
        exact hGet_hSet_eq _ _ _
      · rw [sinkBody_rwWrite, sinkBody_rwFlush]
        have hsink0 : sinkBody ({ rwInit h0 fl with
            headers := hSet (hSet h0 "Content-Type" (sniff b)) "Content-Encoding" "gzip" }).sink = [] := rfl
        rw [hsink0, List.nil_append, hrt, List.flatten_cons]
    · have hm2 : gzipTypesMatch (hGet h0 "Content-Type") = true := by simpa [hct0] using hm
      have hfirst := gzWrite_first_expl_hit sniff b (rwInit h0 fl) hce hct0 hm2
      have hfold : (b :: rest).foldl (gzWrite sniff) (gzInit (rwInit h0 fl)) =
          ⟨true, some (b ++ rest.flatten), { rwInit h0 fl with
            headers := hSet h0 "Content-Encoding" "gzip" }⟩ := by
        rw [List.foldl_cons, hfirst]
        exact gzWrite_buffered sniff rest _ b rfl rfl
      rw [hstage, hfold]
      simp only [gzFlush, gzClose]
      constructor
      · rw [headers_rwWrite, headers_rwFlush]
        exact hGet_hSet_eq _ _ _
      · rw [sinkBody_rwWrite, sinkBody_rwFlush]
        have hsink0 : sinkBody ({ rwInit h0 fl with
            headers := hSet h0 "Content-Encoding" "gzip" }).sink = [] := rfl
        rw [hsink0, List.nil_append, hrt, List.flatten_cons]
  · intro hm
    by_cases hct0 : hGet h0 "Content-Type" = ""
    · have hm2 : gzipTypesMatch (sniff b) = false := by simpa [hct0] using hm
      have hfirst := gzWrite_first_sniff_miss sniff b (rwInit h0 fl) hce hct0 hm2
      have hfold : (b :: rest).foldl (gzWrite sniff) (gzInit (rwInit h0 fl)) =
          ⟨true, none, rest.foldl rwWrite (rwWrite { rwInit h0 fl with
            headers := hSet h0 "Content-Type" (sniff b) } b)⟩ := by
        rw [List.foldl_cons, hfirst]
        exact gzWrite_pass sniff rest _ rfl rfl
      rw [hstage, hfold]
      simp only [gzFlush, gzClose]
      constructor
      · rw [headers_rwFlush, headers_foldl, headers_rwWrite]
        rw [show ({ rwInit h0 fl with
          headers := hSet h0 "Content-Type" (sniff b) } : RWState).headers =
          hSet h0 "Content-Type" (sniff b) from rfl]
        rw [hGet_hSet_ne h0 _ _ _ (by decide)]
        exact hce
      · rw [sinkBody_rwFlush, sinkBody_foldl, sinkBody_rwWrite]
        have hsink0 : sinkBody ({ rwInit h0 fl with
            headers := hSet h0 "Content-Type" (sniff b) }).sink = [] := rfl
        rw [hsink0, List.nil_append, List.flatten_cons]
    · have hm2 : gzipTypesMatch (hGet h0 "Content-Type") = false := by simpa [hct0] using hm
      have hfirst := gzWrite_first_expl_miss sniff b (rwInit h0 fl) hce hct0 hm2
      have hfold : (b :: rest).foldl (gzWrite sniff) (gzInit (rwInit h0 fl)) =
          ⟨true, none, rest.foldl rwWrite (rwWrite (rwInit h0 fl) b)⟩ := by
        rw [List.foldl_cons, hfirst]
        exact gzWrite_pass sniff rest _ rfl rfl
      rw [hstage, hfold]
      simp only [gzFlush, gzClose]
      constructor
      · rw [headers_rwFlush, headers_foldl, headers_rwWrite]
        exact hce
      · rw [sinkBody_rwFlush, sinkBody_foldl, sinkBody_rwWrite]
        have hsink0 : sinkBody (rwInit h0 fl).sink = [] := rfl
        rw [hsink0, List.nil_append, List.flatten_cons]

/-- Witness for C5: identity compressor (round-trip trivially holds), sniffer
returning `text/html`, request `Accept-Encoding: gzip`, handler writing
`[1,2]` then `[3]`: the response carries `Content-Encoding: gzip` and the
decompressed body is `[1,2,3]`. -/
theorem C5_gzip_compression_witness :
    strHasSub "gzip" "gzip" = true ∧
    gzipTypesMatch "text/html" = true ∧
    hGet (gzipStage id (fun _ => "text/html") "gzip" [[1, 2], [3]]
      (rwInit [] true)).headers "Content-Encoding" = "gzip" ∧
    id (sinkBody (gzipStage id (fun _ => "text/html") "gzip" [[1, 2], [3]]
      (rwInit [] true)).sink) = [1, 2, 3] := by
  have h := C5_gzip_compression id id (fun _ => "text/html") "gzip" [] true
    [1, 2] [[3]] (fun x => rfl) (by decide) rfl
  have h2 := h.1 (by decide)
  exact ⟨by decide, by decide, h2.1, by simpa using h2.2⟩

/-! ## Connection gate: `Listener` (src/unnamed/part_002)

### The low threshold's float32 arithmetic

`NewListener` and `ResetMaxNumConn` compute
`maxNumConnLo = int32(float32(maxNumConn) * 0.95)`.  This is IEEE-754
binary32 arithmetic: the literal `0.95` is rounded once to float32, the
`int32` operand is converted to float32 (exact below 2^24, rounded above),
the product is rounded to float32, and the conversion back to `int32`
truncates toward zero.  We model float32 values in the range of interest
(positive, normal, far from overflow) as `num * 2^exp` with a 24-bit
significand, and round-to-nearest-even on the significand. -/

/-- Bit length of `n` (`0` for `0`), fuelled structural recursion; exact for
all `n < 2^64`, far above every quantity in this model. -/
def bitLenAux : Nat → Nat → Nat
  | 0, _ => 0
  | fuel + 1, n => if n = 0 then 0 else bitLenAux fuel (n / 2) + 1

def bitLen (n : Nat) : Nat := bitLenAux 64 n

/-- A (positive or zero) binary32 value `num * 2^exp`, `num < 2^24` once
rounded (a carry to exactly `2^24` is value-correct and harmless here). -/
structure F32 where
  num : Nat
  exp : Int
deriving DecidableEq, Repr

/-- Round `n * 2^e` to 24 significant bits, round-to-nearest, ties to even. -/
def roundSig (n : Nat) (e : Int) : F32 :=
  if n < 2 ^ 24 then ⟨n, e⟩
  else
    let r := bitLen n - 24
    let q := n / 2 ^ r
    let rem := n % 2 ^ r
    let half := 2 ^ (r - 1)
    let q2 := if half < rem || (rem == half && q % 2 == 1) then q + 1 else q
    ⟨q2, e + r⟩

/-- Go conversion `float32(m)` for a non-negative integer `m`. -/
def f32OfNat (m : Nat) : F32 := roundSig m 0

/-- Binary32 multiplication: exact product of significands, one rounding. -/
def f32Mul (x y : F32) : F32 := roundSig (x.num * y.num) (x.exp + y.exp)

/-- Go conversion `int32(x)` for non-negative `x`: truncate toward zero. -/
def f32TruncNat (d : F32) : Nat :=
  if 0 ≤ d.exp then d.num * 2 ^ d.exp.toNat else d.num / 2 ^ (-d.exp).toNat

/-- Significand of `float32(0.95)`: `0.95 * 2^24 = 15938355.2`, and the
fractional part `0.2` is below one half, so round-to-nearest takes the floor
(`15938355`); the value lies in `[2^-1, 1)`, so the exponent is `-24`. -/
def num095 : Nat := 19 * 2 ^ 24 / 20

/-- The float32 nearest `0.95`, as written in the Go source. -/
def f095 : F32 := ⟨num095, -24⟩

/-- Sanity check that `num095` underestimates `0.95 * 2^24` by `4/20 = 0.2`,
which is strictly below half an ulp, so `f095` is indeed the rounding. -/
theorem num095_nearest : 20 * num095 + 4 = 19 * 2 ^ 24 ∧ 2 * 4 < 20 := by decide

/-- `int32(float32(hi) * 0.95)` exactly as the Go source computes it. -/
def goLoNat (hi : Nat) : Nat := f32TruncNat (f32Mul (f32OfNat hi) f095)

/-- The adjusted ceiling: `if maxNumConn <= 0 { maxNumConn = 10 }`. -/
def goHi (m : Int) : Int := if m ≤ 0 then 10 else m

/-- The low threshold computed from a configured ceiling `m`. -/
def goLo (m : Int) : Int := (goLoNat (goHi m).toNat : Int)

/-! ### Gate state machine

The in-flight counter and the three flags are mutated only through atomic
operations; we model the gate as a state machine whose steps are the atomic
phases of the public operations: `runStart` is `Run`'s admission phase
(closed-check, increment, pause logic), `runEnd` is `afterRun` (decrement,
unpause logic — invoked through `defer`, hence exactly once per admitted
`runStart`, even on panic).  `admitted`/`ended` count those two phases and
`log` records each successful pause/unpause compare-and-swap (the
`log.Warning` side effects in the source); all three are instrumentation and
influence no behaviour.  Condition-variable signalling has no state effect
and is not modelled; the predicates the waits use are modelled below. -/

inductive GateTx
  | pauseTx
  | unpauseTx
deriving DecidableEq, Repr

structure LState where
  closed : Bool
  paused : Bool
  hardPaused : Bool
  maxNumConnHi : Int
  maxNumConnLo : Int
  numConn : Int
  underlyingClosed : Bool
  admitted : Nat
  ended : Nat
  log : List GateTx
deriving DecidableEq, Repr

/-- `NewListener` (with `trackConnOnAccept` always false, as constructed). -/
def listenerInit (m : Int) : LState :=
  { closed := false, paused := false, hardPaused := false,
    maxNumConnHi := goHi m, maxNumConnLo := goLo m, numConn := 0,
    underlyingClosed := false, admitted := 0, ended := 0, log := [] }

inductive GateEv
  | runStart
  | runEnd
  | closeEv
  | hardPauseEv
  | resumeEv
  | resetEv (m : Int)
deriving DecidableEq, Repr

/-- `Listener.Close`: a failed CAS on `closed` returns immediately with a nil
error and touches nothing; a successful CAS closes the underlying listener
(modelled error-free) and then waits (see `closeWaitGuard`). -/
def closeCall (s : LState) : LState × Option String :=
  if s.closed then (s, none)
  else ({ s with closed := true, underlyingClosed := true }, none)

/-- The predicate `Close` waits on (`waitCond(closedCond, ...)`): it keeps
waiting while `numConn > 0`, so it can only return when the guard is false. -/
def closeWaitGuard (s : LState) : Bool := decide (s.numConn > 0)

def lstep (s : LState) : GateEv → LState
  | GateEv.runStart =>
    -- Run: early return when closed; else n := AddInt32(&numConn, 1);
    -- if hardPaused or paused: onPaused (no state change);
    -- else if n >= maxNumConnHi: CAS(paused, 0, 1) — fires iff paused was 0.
    if s.closed then s
    else
      let n := s.numConn + 1
      let fire := !s.hardPaused && !s.paused && decide (n ≥ s.maxNumConnHi)
      { s with numConn := n, admitted := s.admitted + 1,
               paused := s.paused || fire,
               log := if fire then s.log ++ [GateTx.pauseTx] else s.log }
  | GateEv.runEnd =>
    -- afterRun: n := AddInt32(&numConn, -1);
    -- if n <= maxNumConnLo: CAS(paused, 1, 0) — fires iff paused was 1.
    let n := s.numConn - 1
    let fire := decide (n ≤ s.maxNumConnLo) && s.paused
    { s with numConn := n, ended := s.ended + 1,
             paused := s.paused && !(decide (n ≤ s.maxNumConnLo)),
             log := if fire then s.log ++ [GateTx.unpauseTx] else s.log }
  | GateEv.closeEv => (closeCall s).1
  | GateEv.hardPauseEv => if s.closed then s else { s with hardPaused := true }
  | GateEv.resumeEv => if s.closed then s else { s with hardPaused := false }
  | GateEv.resetEv m =>
    { s with maxNumConnHi := goHi m, maxNumConnLo := goLo m }

/-- Gate state after a sequence of atomic phases from a fresh gate. -/
def runTrace (m : Int) (tr : List GateEv) : LState :=
  tr.foldl lstep (listenerInit m)

/-! ### Soft-pause hysteresis (claim C2)

The claim's invariant is formalised as a fold over the event trace, written
from the spec's words: pending becomes true when an admission takes the count
to or above the high threshold, and false when a departure takes it to or
below the low threshold.  `specSoftPausedOrig` is the claim as stated (any
admission crossing high engages it); `specSoftPausedAm` additionally requires
the gate not to be hard-paused at that admission — which is what the source
does, since the high-threshold CAS sits in the branch that is skipped while
`hardPaused` (or `paused`) is set. -/

def specSoftPausedOrig : LState → Bool → List GateEv → Bool
  | _, pend, [] => pend
  | s, pend, e :: tr =>
    let pend2 :=
      match e with
      | GateEv.runStart =>
        if s.closed then pend
        else pend || decide (s.numConn + 1 ≥ s.maxNumConnHi)
      | GateEv.runEnd => if s.numConn - 1 ≤ s.maxNumConnLo then false else pend
      | _ => pend
    specSoftPausedOrig (lstep s e) pend2 tr

def specSoftPausedAm : LState → Bool → List GateEv → Bool
  | _, pend, [] => pend
  | s, pend, e :: tr =>
    let pend2 :=
      match e with
      | GateEv.runStart =>
        if s.closed then pend
        else pend || (!s.hardPaused && decide (s.numConn + 1 ≥ s.maxNumConnHi))
      | GateEv.runEnd => if s.numConn - 1 ≤ s.maxNumConnLo then false else pend
      | _ => pend
    specSoftPausedAm (lstep s e) pend2 tr

theorem specAm_paused (tr : List GateEv) : ∀ s : LState,
    (tr.foldl lstep s).paused = specSoftPausedAm s s.paused tr := by
  induction tr with
  | nil => intro s; rfl
  | cons e t ih =>
    intro s
    have hstep : specSoftPausedAm s s.paused (e :: t) =
        specSoftPausedAm (lstep s e) ((lstep s e).paused) t := by
      cases e with
      | runStart =>
        by_cases hc : s.closed
        · simp [specSoftPausedAm, lstep, hc]
        · simp only [specSoftPausedAm, lstep, hc, Bool.false_eq_true, if_false]
          congr 1
          cases hp : s.paused <;> cases hh : s.hardPaused <;> simp
      | runEnd =>
        simp only [specSoftPausedAm, lstep]
        congr 1
        by_cases hcond : s.numConn - 1 ≤ s.maxNumConnLo <;> simp [hcond]
      | closeEv =>
        by_cases hc : s.closed <;> simp [specSoftPausedAm, lstep, closeCall, hc]
      | hardPauseEv =>
        by_cases hc : s.closed <;> simp [specSoftPausedAm, lstep, hc]
      | resumeEv =>
        by_cases hc : s.closed <;> simp [specSoftPausedAm, lstep, hc]
      | resetEv m2 => simp [specSoftPausedAm, lstep]
    rw [List.foldl_cons, hstep]
    exact ih (lstep s e)

/-- Pause/unpause transition log replay: from an unpaused start, transitions
must strictly alternate pause, unpause, pause, ...; returns the final
paused value, or `none` if the log ever repeats a transition. -/
def txRun : Bool → List GateTx → Option Bool
  | b, [] => some b
  | false, GateTx.pauseTx :: t => txRun true t
  | true, GateTx.unpauseTx :: t => txRun false t
  | _, _ => none

theorem txRun_append_pause (l : List GateTx) : ∀ b, txRun b l = some false →
    txRun b (l ++ [GateTx.pauseTx]) = some true := by
  induction l with
  | nil =>
    intro b hb
    cases b
    · rfl
    · simp [txRun] at hb
  | cons x t ih =>
    intro b hb
    cases b <;> cases x <;> simp [txRun] at hb ⊢ <;> exact ih _ hb

theorem txRun_append_unpause (l : List GateTx) : ∀ b, txRun b l = some true →
    txRun b (l ++ [GateTx.unpauseTx]) = some false := by
  induction l with
  | nil =>
    intro b hb
    cases b
    · simp [txRun] at hb
    · rfl
  | cons x t ih =>
    intro b hb
    cases b <;> cases x <;> simp [txRun] at hb ⊢ <;> exact ih _ hb

theorem lstep_txRun (s : LState) (e : GateEv)
    (h : txRun false s.log = some s.paused) :
    txRun false (lstep s e).log = some ((lstep s e).paused) := by
  cases e with
  | runStart =>
    by_cases hc : s.closed
    · simpa [lstep, hc] using h
    · simp only [lstep, hc, Bool.false_eq_true, if_false]
      generalize decide (s.numConn + 1 ≥ s.maxNumConnHi) = c
      cases hp : s.paused <;> cases hh : s.hardPaused <;> cases c <;> simp <;>
        first
          | rw [h, hp]
          | exact txRun_append_pause _ _ (by rw [h, hp])
  | runEnd =>
    simp only [lstep]
    generalize decide (s.numConn - 1 ≤ s.maxNumConnLo) = c
    cases hp : s.paused <;> cases c <;> simp <;>
      first
        | rw [h, hp]
        | exact txRun_append_unpause _ _ (by rw [h, hp])
  | closeEv => by_cases hc : s.closed <;> simpa [lstep, closeCall, hc] using h
  | hardPauseEv => by_cases hc : s.closed <;> simpa [lstep, hc] using h
  | resumeEv => by_cases hc : s.closed <;> simpa [lstep, hc] using h
  | resetEv m2 => simpa [lstep] using h

theorem txRun_trace (tr : List GateEv) : ∀ s : LState,
    txRun false s.log = some s.paused →
    txRun false (tr.foldl lstep s).log = some ((tr.foldl lstep s).paused) := by
  induction tr with
  | nil => intro s h; exact h
  | cons e t ih =>
    intro s h
    rw [List.foldl_cons]
    exact ih (lstep s e) (lstep_txRun s e h)

/-- Counterexample to claim C2 as stated: gate with ceiling 1 (high = 1,
low = 0), hard-paused, then one admission.  The in-flight count (1) has
reached the high threshold and has not fallen back to the low threshold,
so the claimed invariant demands soft-paused = true, and the claimed
engage-CAS should have fired; but the source skips the high-threshold CAS
whenever `hardPaused` (or `paused`) is set, so soft-paused stays false and no
pause transition is logged. -/
theorem C2_soft_pause_counterexample :
    (runTrace 1 [GateEv.hardPauseEv, GateEv.runStart]).numConn ≥
      (runTrace 1 [GateEv.hardPauseEv, GateEv.runStart]).maxNumConnHi ∧
    specSoftPausedOrig (listenerInit 1) false [GateEv.hardPauseEv, GateEv.runStart] = true ∧
    (runTrace 1 [GateEv.hardPauseEv, GateEv.runStart]).paused = false ∧
    (runTrace 1 [GateEv.hardPauseEv, GateEv.runStart]).log = [] := by decide

/-- Claim C2, amended: in every reachable state, soft-paused is true iff some
admission took the in-flight count to or above the high threshold *while the
gate was not hard-paused* and the count has not since fallen to or below the
low threshold (admissions that cross the threshold while hard-paused do not
engage soft-pause); and the engage/clear compare-and-swaps fire strictly
alternately — engaging exactly once per crossing episode and clearing exactly
once when the count falls to or below low. -/
theorem C2_soft_pause_hysteresis (m : Int) (tr : List GateEv) :
    (runTrace m tr).paused = specSoftPausedAm (listenerInit m) false tr ∧
    txRun false (runTrace m tr).log = some ((runTrace m tr).paused) := by
  constructor
  · exact specAm_paused tr (listenerInit m)
  · exact txRun_trace tr (listenerInit m) rfl

/-! ### Close and the drain barrier (claim C3) -/

theorem count_inv (tr : List GateEv) : ∀ s : LState,
    s.numConn = (s.admitted : Int) - (s.ended : Int) →
    (tr.foldl lstep s).numConn =
      ((tr.foldl lstep s).admitted : Int) - ((tr.foldl lstep s).ended : Int) := by
  induction tr with
  | nil => intro s h; exact h
  | cons e t ih =>
    intro s h
    rw [List.foldl_cons]
    apply ih
    cases e with
    | runStart =>
      by_cases hc : s.closed
      · simpa [lstep, hc] using h
      · simp only [lstep, hc, Bool.false_eq_true, if_false]
        push_cast
        omega
    | runEnd =>
      simp only [lstep]
      push_cast
      omega
    | closeEv => by_cases hc : s.closed <;> simpa [lstep, closeCall, hc] using h
    | hardPauseEv => by_cases hc : s.closed <;> simpa [lstep, hc] using h
    | resumeEv => by_cases hc : s.closed <;> simpa [lstep, hc] using h
    | resetEv m2 => simpa [lstep] using h

/-- A trace is well formed when no prefix has more `afterRun` phases than
admitted `Run` phases — which real executions guarantee, each `afterRun`
being the `defer` of exactly one admitted `Run`. -/
def wellFormedTrace (m : Int) (tr : List GateEv) : Prop :=
  ∀ k, k ≤ tr.length →
    (runTrace m (tr.take k)).ended ≤ (runTrace m (tr.take k)).admitted

/-- Claim C3: `Close()` is idempotent — the first call (successful CAS on
`closed`) closes the underlying listener and then can only return once the
in-flight count has drained to zero (the wait guard holds while `numConn >
0`, and the count is never negative); every later call fails the CAS and
immediately returns no error, touching neither the underlying listener nor
any gate state. -/
theorem C3_close_idempotent_drain :
    (∀ s : LState, s.closed = true → closeCall s = (s, none)) ∧
    (∀ s : LState, s.closed = false →
      closeCall s = ({ s with closed := true, underlyingClosed := true }, none)) ∧
    (∀ (m : Int) (tr : List GateEv), wellFormedTrace m tr →
      0 ≤ (runTrace m tr).numConn ∧
      (closeWaitGuard (runTrace m tr) = false → (runTrace m tr).numConn = 0)) := by
  refine ⟨fun s hs => by simp [closeCall, hs], fun s hs => by simp [closeCall, hs],
    fun m tr hwf => ?_⟩
  have hcnt : (runTrace m tr).numConn =
      ((runTrace m tr).admitted : Int) - ((runTrace m tr).ended : Int) :=
    count_inv tr (listenerInit m) (by simp [listenerInit])
  have hle := hwf tr.length (le_refl _)
  rw [List.take_length] at hle
  have hge : 0 ≤ (runTrace m tr).numConn := by
    rw [hcnt]
    omega
  refine ⟨hge, fun hguard => ?_⟩
  simp only [closeWaitGuard, decide_eq_false_iff_not, not_lt] at hguard
  omega

/-- Witness for C3: gate with ceiling 3; one request admitted and completed,
then `Close`.  The second `Close` call is a no-op returning no error; the
trace is well formed, the count is 0, and the wait guard is false, so the
first `Close` may return, with the count indeed 0. -/
theorem C3_close_idempotent_drain_witness :
    ((runTrace 3 [GateEv.runStart, GateEv.runEnd, GateEv.closeEv]).closed = true ∧
      closeCall (runTrace 3 [GateEv.runStart, GateEv.runEnd, GateEv.closeEv]) =
        (runTrace 3 [GateEv.runStart, GateEv.runEnd, GateEv.closeEv], none)) ∧
    ((listenerInit 3).closed = false ∧
      closeCall (listenerInit 3) =
        ({ listenerInit 3 with closed := true, underlyingClosed := true }, none)) ∧
    (wellFormedTrace 3 [GateEv.runStart, GateEv.runEnd, GateEv.closeEv] ∧
      closeWaitGuard (runTrace 3 [GateEv.runStart, GateEv.runEnd, GateEv.closeEv]) = false ∧
      (runTrace 3 [GateEv.runStart, GateEv.runEnd, GateEv.closeEv]).numConn = 0) := by
  have h := C3_close_idempotent_drain
  have hwf : wellFormedTrace 3 [GateEv.runStart, GateEv.runEnd, GateEv.closeEv] := by
    intro k hk
    have hk3 : k ≤ 3 := by simpa using hk
    interval_cases k <;> decide
  refine ⟨⟨by decide, h.1 _ (by decide)⟩, ⟨rfl, h.2.1 _ rfl⟩, hwf, by decide, ?_⟩
  exact (h.2.2 3 [GateEv.runStart, GateEv.runEnd, GateEv.closeEv] hwf).2 (by decide)

/-! ### `Listener.Run` as one invocation (claims C4, C6)

`Run(onClosed, onPaused, onRun)` on one thread: early return via `onClosed`
when closed; otherwise increment, flag check (`onPaused` is informational),
`defer s.afterRun()`, then `onRun()`.  Go's `defer` runs `afterRun` both on
normal return and while propagating a panic out of `onRun`, so the model
applies the `runEnd` phase unconditionally; `onRunFaults` records whether
`onRun` panicked, and the fault is re-propagated after the cleanup. -/

structure RunCalls where
  onClosed : Bool
  onPaused : Bool
  onRun : Bool
  countAtOnRun : Option Int
deriving DecidableEq, Repr

/-- One complete `Run` invocation with no interleaved steps from other
threads: final gate state, which callbacks were invoked (with the in-flight
count as `onRun` starts), and whether a fault propagates to the caller. -/
def listenerRun (s : LState) (onRunFaults : Bool) : LState × RunCalls × Bool :=
  if s.closed then (s, ⟨true, false, false, none⟩, false)
  else
    let s1 := lstep s GateEv.runStart
    let s2 := lstep s1 GateEv.runEnd
    (s2, ⟨false, s.hardPaused || s.paused, true, some s1.numConn⟩, onRunFaults)

/-- Claim C4: on a non-closed gate, `Run` increments the in-flight count
exactly once before `onRun` (which is always invoked) and decrements it
exactly once afterwards through the deferred cleanup, so the invocation
leaves the net count unchanged whether or not `onRun` faults. -/
theorem C4_run_no_slot_leak (s : LState) (fault : Bool) (h : s.closed = false) :
    (listenerRun s fault).2.1.onRun = true ∧
    (listenerRun s fault).2.1.countAtOnRun = some (s.numConn + 1) ∧
    (listenerRun s fault).1.numConn = s.numConn ∧
    (listenerRun s true).1 = (listenerRun s false).1 := by
  refine ⟨?_, ?_, ?_, ?_⟩ <;> simp [listenerRun, h, lstep]

/-- Witness for C4: fresh gate with ceiling 10; `Run` (faulting or not) sees
count 1 inside `onRun` and leaves count 0. -/
theorem C4_run_no_slot_leak_witness :
    (listenerInit 10).closed = false ∧
    (listenerRun (listenerInit 10) true).2.1.onRun = true ∧
    (listenerRun (listenerInit 10) true).2.1.countAtOnRun = some 1 ∧
    (listenerRun (listenerInit 10) true).1.numConn = 0 := by
  have h := C4_run_no_slot_leak (listenerInit 10) true rfl
  exact ⟨rfl, h.1, by rw [h.2.1]; rfl, by rw [h.2.2.1]; rfl⟩

/-- Claim C6: `Run` on a closed gate invokes only `onClosed` — neither
`onPaused` nor `onRun` — leaves the whole gate state (in particular the
in-flight count) unchanged, and propagates no fault. -/
theorem C6_run_closed_only_onClosed (s : LState) (fault : Bool)
    (h : s.closed = true) :
    listenerRun s fault = (s, ⟨true, false, false, none⟩, false) := by
  simp [listenerRun, h]

/-- Witness for C6: a gate closed after construction; `Run` returns the state
untouched having called only `onClosed`. -/
theorem C6_run_closed_only_onClosed_witness :
    (runTrace 10 [GateEv.closeEv]).closed = true ∧
    listenerRun (runTrace 10 [GateEv.closeEv]) true =
      (runTrace 10 [GateEv.closeEv], ⟨true, false, false, none⟩, false) := by
  exact ⟨by decide, C6_run_closed_only_onClosed _ true (by decide)⟩

/-! ### Thresholds (claim C7) -/

/-- Bounded check that the float32 low threshold agrees with
`floor(0.95 * hi)` for every `hi` up to the given bound. -/
def checkLoUpTo : Nat → Bool
  | 0 => goLoNat 0 == 0
  | n + 1 => (goLoNat (n + 1) == 19 * (n + 1) / 20) && checkLoUpTo n

theorem checkLo_sound (n : Nat) (h : checkLoUpTo n = true) :
    ∀ k, k ≤ n → goLoNat k = 19 * k / 20 := by
  induction n with
  | zero =>
    intro k hk
    have hk0 : k = 0 := Nat.le_zero.mp hk
    subst hk0
    simpa [checkLoUpTo] using h
  | succ n ih =>
    intro k hk
    simp only [checkLoUpTo, Bool.and_eq_true, beq_iff_eq] at h
    rcases Nat.eq_or_lt_of_le hk with heq | hlt
    · subst heq
      exact h.1
    · exact ih h.2 k (Nat.lt_succ_iff.mp hlt)

/-- Counterexample to claim C7 as stated: at ceiling `M = 2^30` the source's
`int32(float32(M) * 0.95)` yields 1020054720 — the float32 product
`2^30 * (15938355/2^24)` is exact and falls 12.8 below the real `0.95 * 2^30`
— whereas `floor(0.95 * 2^30) = 1020054732`. -/
theorem C7_thresholds_counterexample :
    (listenerInit 1073741824).maxNumConnHi = 1073741824 ∧
    (listenerInit 1073741824).maxNumConnLo = 1020054720 ∧
    (19 * (1073741824 : Int)) / 20 = 1020054732 ∧
    ¬((listenerInit 1073741824).maxNumConnLo =
      19 * (listenerInit 1073741824).maxNumConnHi / 20) := by decide

set_option maxRecDepth 20000 in
/-- Claim C7, amended: at construction and after every `ResetMaxNumConn`, the
high threshold equals the configured ceiling when positive and 10 otherwise,
and the low threshold equals `int32(float32(high) * 0.95)` — float32
arithmetic truncated toward zero — which agrees with `floor(0.95 * high)` for
every high up to 1000 (covering the documented configurations) though not for
all representable ceilings. -/
theorem C7_thresholds (m : Int) (s : LState) (hi : Nat) (hhi : hi ≤ 1000) :
    (listenerInit m).maxNumConnHi = (if m ≤ 0 then 10 else m) ∧
    (listenerInit m).maxNumConnLo =
      (goLoNat ((if m ≤ 0 then 10 else m) : Int).toNat : Int) ∧
    (lstep s (GateEv.resetEv m)).maxNumConnHi = (if m ≤ 0 then 10 else m) ∧
    (lstep s (GateEv.resetEv m)).maxNumConnLo =
      (goLoNat ((if m ≤ 0 then 10 else m) : Int).toNat : Int) ∧
    goLoNat hi = 19 * hi / 20 := by
  exact ⟨rfl, rfl, rfl, rfl, checkLo_sound 1000 (by decide) hi hhi⟩

/-- Witness for C7: ceiling 10 gives high 10, low 9 (the spec's own example),
at construction and after a reset, and `goLoNat 10 = 9 = floor(0.95*10)`. -/
theorem C7_thresholds_witness :
    (listenerInit 10).maxNumConnHi = 10 ∧
    (listenerInit 10).maxNumConnLo = 9 ∧
    (lstep (listenerInit 3) (GateEv.resetEv 10)).maxNumConnHi = 10 ∧
    (lstep (listenerInit 3) (GateEv.resetEv 10)).maxNumConnLo = 9 ∧
    (10 : Nat) ≤ 1000 ∧ goLoNat 10 = 19 * 10 / 20 := by
  have h := C7_thresholds 10 (listenerInit 3) 10 (by decide)
  refine ⟨by decide, by decide, by decide, by decide, by decide, h.2.2.2.2⟩
